import Mathlib

/-!
Verification of the observation/action adapter in `rl/envs.py` and the
one-hot utility in `rl/utils/np_ext.py`.

The adapter (`GameInterfaceHandler`) turns raw per-tile feature maps into
channel-expanded tensors, builds an availability mask over the action
vocabulary, and decodes (action id, flat spatial index) pairs back into
structured simulator commands.

Modelling conventions:
* a 2-D image layer is a `List (List ℝ)` (rows of pixel values); raw
  observation maps are lists of such layers (the layer axis comes first,
  as in numpy shape `(L, H, W)`);
* `np.log` is modelled by `Real.log`;
* the feature catalogs (`features.SCREEN_FEATURES`, `features.MINIMAP_FEATURES`)
  and the action vocabulary (`actions.FUNCTIONS`) live in the external pysc2
  library, so they are parameters: an arbitrary `List Feature`
  respectively `List FunctionDef`;
* a Python `assert` or a numpy `IndexError` is modelled by `Except` /
  `Option` failure.
-/

namespace PySC2

/-- Kind of a feature layer: `features.FeatureType` in pysc2. -/
inductive FeatureType where
  | SCALAR : FeatureType
  | CATEGORICAL : FeatureType
deriving DecidableEq, Repr

/-- One entry of a feature-layer catalog: its kind and its `scale`
(the cardinality, meaningful for CATEGORICAL layers). -/
structure Feature where
  type : FeatureType
  scale : ℕ
deriving DecidableEq, Repr

/-- A 2-D image layer: rows of pixel values, numpy shape `(H, W)`. -/
abbrev Mat := List (List ℝ)

/-- Pixel access `m[r][c]` with the numpy value 0 as fallback. -/
def pixel (m : Mat) (r c : ℕ) : ℝ :=
  (m.getD r []).getD c 0

/-- Shape predicate: `m` is an `H × W` image. -/
def mshape (m : Mat) (H W : ℕ) : Prop :=
  m.length = H ∧ ∀ row ∈ m, row.length = W

/-- Embeds `np.log(screen[i:i+1] + 1.)`: elementwise `log(x + 1)` on one layer
(the slice `i:i+1` keeps a single channel, so one `Mat` in, one `Mat` out). -/
noncomputable def scalarLayer (m : Mat) : Mat :=
  m.map (fun row => row.map (fun x => Real.log (x + 1)))

/-- Embeds building category channel `j`:
`indy, indx = (screen[i] == j).nonzero(); layer[j, indy, indx] = 1`,
i.e. the indicator image of the pixels whose value equals `j`. -/
noncomputable def catChannel (j : ℕ) (m : Mat) : Mat :=
  m.map (fun row => row.map (fun v => if v = (j : ℝ) then (1 : ℝ) else 0))

/-- Embeds the categorical branch: `scale` indicator channels,
`for j in range(screen_feature.scale)`. -/
noncomputable def categoricalLayer (scale : ℕ) (m : Mat) : List Mat :=
  (List.range scale).map (fun j => catChannel j m)

/-- One iteration of the preprocessing loop body, for one catalog entry. -/
noncomputable def preprocessLayer (f : Feature) (m : Mat) : List Mat :=
  match f.type with
  | FeatureType.SCALAR => [scalarLayer m]
  | FeatureType.CATEGORICAL => categoricalLayer f.scale m

/-- The channel stack produced by the preprocessing loop followed by
`np.concatenate(layers, axis=0)`, assuming the assert passed. -/
noncomputable def preprocessedLayers (feats : List Feature) (screen : List Mat) :
    List Mat :=
  ((feats.zip screen).map (fun p => preprocessLayer p.1 p.2)).flatten

/-- Embeds `GameInterfaceHandler._preprocess_screen`: asserts that the layer
count matches the catalog length, then builds the expanded channel stack.
The failing `assert` is modelled as `Except.error`. -/
noncomputable def preprocess_screen (feats : List Feature) (screen : List Mat) :
    Except String (List Mat) :=
  if screen.length = feats.length then
    Except.ok (preprocessedLayers feats screen)
  else
    Except.error "AssertionError"

/-- Embeds `GameInterfaceHandler._preprocess_minimap`: textually the same
algorithm as `_preprocess_screen`, against the minimap catalog. -/
noncomputable def preprocess_minimap (feats : List Feature) (minimap : List Mat) :
    Except String (List Mat) :=
  if minimap.length = feats.length then
    Except.ok (preprocessedLayers feats minimap)
  else
    Except.error "AssertionError"

/-- Embeds `GameInterfaceHandler.get_screen`: preprocess, then
`np.expand_dims(screen, 0)` — a batch axis of size 1, modelled as a
singleton list around the channel stack. -/
noncomputable def get_screen (feats : List Feature) (screen : List Mat) :
    Except String (List (List Mat)) :=
  (preprocess_screen feats screen).map (fun t => [t])

/-- Embeds `GameInterfaceHandler.get_minimap`. -/
noncomputable def get_minimap (feats : List Feature) (minimap : List Mat) :
    Except String (List (List Mat)) :=
  (preprocess_minimap feats minimap).map (fun t => [t])

/-- Embeds the `screen_channels` property: the loop
`channels += 1` for SCALAR, `channels += screen_feature.scale` otherwise. -/
def screen_channels (feats : List Feature) : ℕ :=
  feats.foldl
    (fun channels f =>
      match f.type with
      | FeatureType.SCALAR => channels + 1
      | FeatureType.CATEGORICAL => channels + f.scale)
    0

/-- Embeds the `minimap_channels` property (same loop over the minimap
catalog). -/
def minimap_channels (feats : List Feature) : ℕ :=
  feats.foldl
    (fun channels f =>
      match f.type with
      | FeatureType.SCALAR => channels + 1
      | FeatureType.CATEGORICAL => channels + f.scale)
    0

/-- Embeds `GameInterfaceHandler._preprocess_available_actions`:
`a_actions = np.zeros((self.num_action)); a_actions[available_actions] = 1.`.
Fancy index assignment sets position `i` to 1 for each listed identifier,
in order; `List.set` is that per-index write. -/
def preprocess_available_actions (num_action : ℕ) (available_actions : List ℕ) :
    List ℝ :=
  available_actions.foldl (fun a_actions i => a_actions.set i 1)
    (List.replicate num_action (0 : ℝ))

/-- One named argument slot of an action, `actions.ArgumentType` in pysc2. -/
structure Arg where
  name : String
deriving DecidableEq, Repr

/-- One vocabulary entry of `actions.FUNCTIONS`: an ordered list of argument
slots (the identifier is the entry's position in the vocabulary list). -/
structure FunctionDef where
  args : List Arg
deriving DecidableEq, Repr

/-- Embeds `actions.FunctionCall(act_id, act_args)`. -/
structure FunctionCall where
  function : ℕ
  arguments : List (List ℕ)
deriving DecidableEq, Repr

/-- The fixed set of spatial argument-slot names,
`('screen', 'minimap', 'screen2')` in the source. -/
def spatialNames : List String := ["screen", "minimap", "screen2"]

/-- Embeds the decoding of the flat spatial index:
`[int(target % self.screen_resolution), int(target // self.screen_resolution)]`,
the `(x, y)` target point. -/
def target_point (screen_resolution target : ℕ) : List ℕ :=
  [target % screen_resolution, target / screen_resolution]

/-- Embeds `GameInterfaceHandler.postprocess_action`: decode the flat spatial
index into `(x, y)`, then walk `actions.FUNCTIONS[act_id].args` in order,
supplying the target point at spatial slots and `[0]` elsewhere.
The Python lookup `actions.FUNCTIONS[act_id]` raises on an out-of-range
identifier, modelled as `Option.none`. -/
def postprocess_action (FUNCTIONS : List FunctionDef)
    (screen_resolution non_spatial_action spatial_action : ℕ) :
    Option FunctionCall :=
  let act_id := non_spatial_action
  let target := spatial_action
  match FUNCTIONS.get? act_id with
  | none => none
  | some fn =>
      some
        ⟨act_id,
          fn.args.map (fun arg =>
            if arg.name ∈ spatialNames then
              target_point screen_resolution target
            else
              [0])⟩

/-- Embeds `GameInterfaceHandler._get_nonspatial_actions`: start from
`[True] * num_action` and set entry `func_id` to `False` as soon as one of
the function's argument slots has a spatial name (the inner loop with
`break`); so entry `func_id` ends up `True` iff every slot is non-spatial. -/
def get_nonspatial_actions (FUNCTIONS : List FunctionDef) : List Bool :=
  FUNCTIONS.map (fun fn => fn.args.all (fun arg => !spatialNames.contains arg.name))

/-- Embeds `GameInterfaceHandler.is_nonspatial_action`: the source executes
`self.non_spatial_actions(action_id)`, which CALLS the list
`non_spatial_actions` instead of indexing it, so Python raises
`TypeError` for every argument; modelled as an unconditional error. -/
def is_nonspatial_action (_FUNCTIONS : List FunctionDef) (_action_id : ℕ) :
    Except String Bool :=
  Except.error "TypeError: list object is not callable"

/-- Embeds `np.eye(depth, dtype=dtype)`: the `depth × depth` identity matrix
(1 on the diagonal, 0 elsewhere). -/
def npEye (depth : ℕ) : List (List ℕ) :=
  (List.range depth).map (fun r => (List.range depth).map (fun c => if r = c then 1 else 0))

/-- Embeds `one_hot` from `rl/utils/np_ext.py`:
`np.eye(depth, dtype=dtype)[indices.astype(int)]` — row selection from the
identity matrix, one row per index. numpy raises `IndexError` when an index
is out of range, modelled as `Option.none`. -/
def one_hot (indices : List ℕ) (depth : ℕ) : Option (List (List ℕ)) :=
  if indices.all (fun i => i < depth) then
    some (indices.map (fun i => (npEye depth).getD i []))
  else
    none

/-! ### Helper lemmas -/

/-- Flat-index decoding at the last cell of the grid. -/
lemma target_point_last (R : ℕ) (hR : 0 < R) :
    target_point R (R * R - 1) = [R - 1, R - 1] := by
  obtain ⟨n, rfl⟩ : ∃ n, R = n + 1 := ⟨R - 1, (Nat.succ_pred_eq_of_pos hR).symm⟩
  have h : (n + 1) * (n + 1) - 1 = (n + 1) * n + n := by
    have h2 : (n + 1) * (n + 1) = (n + 1) * n + n + 1 := by ring
    omega
  simp only [target_point, h, Nat.mul_add_mod, Nat.add_mul_div_left, Nat.succ_sub_one]
  rw [Nat.mul_add_div (by omega), Nat.mod_eq_of_lt (by omega), Nat.div_eq_of_lt (by omega)]
  simp

/-! ### Claims about action decoding -/

/-- C4: `postprocess_action` decodes the flat spatial index `f` with resolution
`R` into the target point `(f % R, f / R)`; in particular `f = 0` gives
`(0, 0)`, `f = R` gives `(0, 1)` and `f = R * R - 1` gives `(R - 1, R - 1)`. -/
theorem postprocess_action_decodes_flat_index
    (FUNCTIONS : List FunctionDef) (R act_id f : ℕ) (fn : FunctionDef)
    (hfn : FUNCTIONS.get? act_id = some fn) (hR : 0 < R) :
    postprocess_action FUNCTIONS R act_id f =
      some ⟨act_id, fn.args.map (fun arg =>
        if arg.name ∈ spatialNames then [f % R, f / R] else [0])⟩ ∧
    target_point R f = [f % R, f / R] ∧
    target_point R 0 = [0, 0] ∧
    target_point R R = [0, 1] ∧
    target_point R (R * R - 1) = [R - 1, R - 1] := by
  refine ⟨?_, rfl, ?_, ?_, target_point_last R hR⟩
  · simp only [postprocess_action, hfn, target_point]
  · simp [target_point]
  · simp [target_point, Nat.mod_self, Nat.div_self hR]

/-- C4 witness: decoding with resolution 4, on a one-action vocabulary
with a single spatial slot. -/
theorem postprocess_action_decodes_flat_index_witness :
    postprocess_action [⟨[⟨"screen"⟩]⟩] 4 0 9 = some ⟨0, [[1, 2]]⟩ ∧
    target_point 4 (4 * 4 - 1) = [3, 3] := by
  have h := postprocess_action_decodes_flat_index [⟨[⟨"screen"⟩]⟩] 4 0 9 ⟨[⟨"screen"⟩]⟩
    (by simp) (by norm_num)
  refine ⟨?_, h.2.2.2.2⟩
  rw [h.1]
  simp [spatialNames]

/-- C6: `postprocess_action` assembles the argument list by walking the
action's declared slots in order, supplying the decoded target point at every
spatial slot and the placeholder `[0]` at every other slot; an action with two
spatial slots and one non-spatial slot yields three arguments, the same
`(x, y)` pair at both spatial positions and `[0]` at the non-spatial one. -/
theorem postprocess_action_args_assembly
    (FUNCTIONS : List FunctionDef) (R act_id t : ℕ) (fn : FunctionDef)
    (hfn : FUNCTIONS.get? act_id = some fn) :
    postprocess_action FUNCTIONS R act_id t =
      some ⟨act_id, fn.args.map (fun arg =>
        if arg.name ∈ spatialNames then target_point R t else [0])⟩ ∧
    (∀ a1 a2 a3 : Arg, a1.name ∈ spatialNames → a2.name ∈ spatialNames →
      a3.name ∉ spatialNames →
      postprocess_action [⟨[a1, a2, a3]⟩] R 0 t =
        some ⟨0, [target_point R t, target_point R t, [0]]⟩ ∧
      (postprocess_action [⟨[a1, a2, a3]⟩] R 0 t).map
          (fun call => call.arguments.length) = some 3) := by
  constructor
  · simp only [postprocess_action, hfn]
  · intro a1 a2 a3 h1 h2 h3
    constructor
    · simp [postprocess_action, h1, h2, h3]
    · simp [postprocess_action, h1, h2, h3]

/-- C6 witness: an action with spatial slots `screen` and `screen2` and
non-spatial slot `queued`, at resolution 5 and target index 7. -/
theorem postprocess_action_args_assembly_witness :
    postprocess_action [⟨[⟨"screen"⟩, ⟨"screen2"⟩, ⟨"queued"⟩]⟩] 5 0 7 =
      some ⟨0, [[2, 1], [2, 1], [0]]⟩ := by
  have h := postprocess_action_args_assembly
    [⟨[⟨"screen"⟩, ⟨"screen2"⟩, ⟨"queued"⟩]⟩] 5 0 7
    ⟨[⟨"screen"⟩, ⟨"screen2"⟩, ⟨"queued"⟩]⟩ (by simp)
  have h2 := (h.2 ⟨"screen"⟩ ⟨"screen2"⟩ ⟨"queued"⟩ (by simp [spatialNames])
    (by simp [spatialNames]) (by simp [spatialNames])).1
  rw [h2]
  simp [target_point]

/-- The per-index writes of fancy index assignment preserve the vector
length. -/
lemma foldl_set_length (l : List ℕ) (acc : List ℝ) :
    (l.foldl (fun a j => a.set j 1) acc).length = acc.length := by
  induction l generalizing acc with
  | nil => rfl
  | cons x xs ih => simp [ih]

/-- Entry `i` after the per-index writes: 1 when `i` was written, otherwise
the original entry. -/
lemma foldl_set_getD (l : List ℕ) (acc : List ℝ) (i : ℕ) (hi : i < acc.length) :
    (l.foldl (fun a j => a.set j 1) acc).getD i 0 =
      if i ∈ l then 1 else acc.getD i 0 := by
  induction l generalizing acc with
  | nil => simp
  | cons x xs ih =>
    simp only [List.foldl_cons]
    rw [ih (acc.set x 1) (by simpa using hi)]
    by_cases hx : i ∈ xs
    · simp [hx]
    · by_cases hxi : i = x
      · subst hxi
        simp only [List.mem_cons, true_or, if_true, hx, if_false]
        rw [List.getD_eq_getElem _ _ (by simpa using hi)]
        simp [List.getElem_set]
      · simp only [List.mem_cons, hx, or_false, hxi, if_false]
        by_cases hxl : x < acc.length
        · rw [List.getD_eq_getElem _ _ (by simpa using hi),
            List.getD_eq_getElem _ _ hi]
          simp [List.getElem_set, hxi, Ne.symm hxi]
        · rw [List.set_eq_of_length_le (by omega)]

/-- C5: the availability mask has length `num_action`, carries 1 exactly at
the listed identifiers and 0 elsewhere, and duplicated identifiers are
idempotent. -/
theorem preprocess_available_actions_mask (num_action : ℕ) (S : List ℕ)
    (hS : ∀ i ∈ S, i < num_action) :
    (preprocess_available_actions num_action S).length = num_action ∧
    (∀ i, i < num_action →
      (preprocess_available_actions num_action S).getD i 0 =
        if i ∈ S then 1 else 0) ∧
    (∀ j l, preprocess_available_actions num_action (j :: j :: l) =
      preprocess_available_actions num_action (j :: l)) := by
  refine ⟨?_, ?_, ?_⟩
  · rw [preprocess_available_actions, foldl_set_length]
    exact List.length_replicate num_action 0
  · intro i hi
    rw [preprocess_available_actions,
      foldl_set_getD S _ i (by simpa using hi)]
    by_cases h : i ∈ S
    · simp [h]
    · simp [h, List.getD_eq_getElem (List.replicate num_action (0 : ℝ)) 0
        (by simpa using hi)]
  · intro j l
    simp [preprocess_available_actions, List.set_set]

/-- C5 witness: vocabulary size 4, listed identifiers `[2, 0, 2]`. -/
theorem preprocess_available_actions_mask_witness :
    (preprocess_available_actions 4 [2, 0, 2]).length = 4 ∧
    (preprocess_available_actions 4 [2, 0, 2]).getD 0 0 = 1 ∧
    (preprocess_available_actions 4 [2, 0, 2]).getD 1 0 = 0 ∧
    (preprocess_available_actions 4 [2, 0, 2]).getD 2 0 = 1 ∧
    (preprocess_available_actions 4 [2, 0, 2]).getD 3 0 = 0 := by
  have h := preprocess_available_actions_mask 4 [2, 0, 2] (by decide)
  refine ⟨h.1, ?_, ?_, ?_, ?_⟩
  · rw [h.2.1 0 (by norm_num)]; simp
  · rw [h.2.1 1 (by norm_num)]; simp
  · rw [h.2.1 2 (by norm_num)]; simp
  · rw [h.2.1 3 (by norm_num)]; simp

/-! ### Claims about the non-spatial classification and the one-hot utility -/

/-- C7: the construction-time classification marks action `i` non-spatial iff
none of its argument slots has a spatial name; but the exposed lookup
`is_nonspatial_action` does not return it — the source calls the list
`non_spatial_actions` instead of indexing it, so every lookup fails with a
`TypeError`. -/
theorem nonspatial_classification_and_lookup
    (FUNCTIONS : List FunctionDef) (i : ℕ) (fn : FunctionDef)
    (hfn : FUNCTIONS.get? i = some fn) :
    (get_nonspatial_actions FUNCTIONS).get? i =
      some (fn.args.all (fun arg => !spatialNames.contains arg.name)) ∧
    ((get_nonspatial_actions FUNCTIONS).get? i = some true ↔
      ∀ arg ∈ fn.args, arg.name ∉ spatialNames) ∧
    is_nonspatial_action FUNCTIONS i =
      Except.error "TypeError: list object is not callable" := by
  have hmap : (get_nonspatial_actions FUNCTIONS).get? i =
      some (fn.args.all (fun arg => !spatialNames.contains arg.name)) := by
    rw [List.get?_eq_getElem?] at hfn ⊢
    rw [get_nonspatial_actions, List.getElem?_map, hfn, Option.map_some']
  refine ⟨hmap, ?_, rfl⟩
  rw [hmap]
  simp

/-- C7 witness: a two-action vocabulary — action 0 with a `queued` slot only
(classified non-spatial), action 1 with a `minimap` slot (classified
spatial) — and the lookup failing on action 0. -/
theorem nonspatial_classification_and_lookup_witness :
    (get_nonspatial_actions [⟨[⟨"queued"⟩]⟩, ⟨[⟨"minimap"⟩]⟩]).get? 0 =
      some true ∧
    (get_nonspatial_actions [⟨[⟨"queued"⟩]⟩, ⟨[⟨"minimap"⟩]⟩]).get? 1 =
      some false ∧
    is_nonspatial_action [⟨[⟨"queued"⟩]⟩, ⟨[⟨"minimap"⟩]⟩] 0 =
      Except.error "TypeError: list object is not callable" := by
  have h0 := nonspatial_classification_and_lookup
    [⟨[⟨"queued"⟩]⟩, ⟨[⟨"minimap"⟩]⟩] 0 ⟨[⟨"queued"⟩]⟩ (by simp)
  have h1 := nonspatial_classification_and_lookup
    [⟨[⟨"queued"⟩]⟩, ⟨[⟨"minimap"⟩]⟩] 1 ⟨[⟨"minimap"⟩]⟩ (by simp)
  refine ⟨?_, ?_, h0.2.2⟩
  · rw [h0.1]; simp [spatialNames]
  · rw [h1.1]; simp [spatialNames]

/-- Row `i` of the identity matrix is the indicator vector of `i`. -/
lemma npEye_row (depth i : ℕ) (hi : i < depth) :
    (npEye depth).getD i [] =
      (List.range depth).map (fun j => if i = j then 1 else 0) := by
  rw [npEye, List.getD_eq_getElem _ _ (by simpa using hi)]
  rw [List.getElem_map, List.getElem_range]

/-- C9: for in-range indices, `one_hot` returns one row per index, each row of
length `depth`, all zeros except a 1 at the position of the index. -/
theorem one_hot_is_onehot (indices : List ℕ) (depth : ℕ)
    (hd : 0 < depth) (h : ∀ i ∈ indices, i < depth) :
    one_hot indices depth =
      some (indices.map (fun i =>
        (List.range depth).map (fun j => if i = j then 1 else 0))) ∧
    (∀ rows, one_hot indices depth = some rows →
      rows.length = indices.length ∧
      ∀ k, k < indices.length →
        (rows.getD k []).length = depth ∧
        ∀ j, j < depth →
          (rows.getD k []).getD j 0 =
            if indices.getD k 0 = j then 1 else 0) := by
  have hall : indices.all (fun i => decide (i < depth)) = true := by
    simp only [List.all_eq_true, decide_eq_true_eq]
    exact h
  have hmain : one_hot indices depth =
      some (indices.map (fun i =>
        (List.range depth).map (fun j => if i = j then 1 else 0))) := by
    rw [one_hot, if_pos hall]
    congr 1
    refine List.map_congr_left ?_
    intro i hi
    exact npEye_row depth i (h i hi)
  refine ⟨hmain, ?_⟩
  intro rows hrows
  rw [hmain] at hrows
  injection hrows with hrows
  subst hrows
  constructor
  · exact List.length_map indices _
  · intro k hk
    have hrow : ((indices.map (fun i =>
        (List.range depth).map (fun j => if i = j then 1 else 0))).getD k []) =
        (List.range depth).map (fun j => if indices.getD k 0 = j then 1 else 0) := by
      rw [List.getD_eq_getElem _ _ (by simpa using hk), List.getElem_map]
      rw [List.getD_eq_getElem _ _ hk]
    rw [hrow]
    constructor
    · simp
    · intro j hj
      rw [List.getD_eq_getElem _ _ (by simpa using hj), List.getElem_map,
        List.getElem_range]

/-- C9 witness: indices `[1, 0, 1]` at depth 2. -/
theorem one_hot_is_onehot_witness :
    one_hot [1, 0, 1] 2 = some [[0, 1], [1, 0], [0, 1]] := by
  have h := one_hot_is_onehot [1, 0, 1] 2 (by norm_num) (by decide)
  rw [h.1]
  decide

/-! ### Claims about preprocessing failure and the per-pixel encodings -/

/-- C8: preprocessing fails (the `assert`) iff the layer count of the input
differs from the catalog length, for screen and minimap alike, and a failure
propagates unchanged through `get_screen` / `get_minimap`. -/
theorem preprocess_assert_iff_mismatch (feats : List Feature) (obs : List Mat) :
    ((preprocess_screen feats obs).isOk = true ↔ obs.length = feats.length) ∧
    (preprocess_screen feats obs = Except.error "AssertionError" ↔
      obs.length ≠ feats.length) ∧
    ((preprocess_minimap feats obs).isOk = true ↔ obs.length = feats.length) ∧
    (preprocess_minimap feats obs = Except.error "AssertionError" ↔
      obs.length ≠ feats.length) ∧
    (∀ e, preprocess_screen feats obs = Except.error e →
      get_screen feats obs = Except.error e) ∧
    (∀ e, preprocess_minimap feats obs = Except.error e →
      get_minimap feats obs = Except.error e) := by
  refine ⟨?_, ?_, ?_, ?_, ?_, ?_⟩
  · rw [preprocess_screen]
    by_cases h : obs.length = feats.length <;> simp [h, Except.isOk, Except.toBool]
  · rw [preprocess_screen]
    by_cases h : obs.length = feats.length <;> simp [h]
  · rw [preprocess_minimap]
    by_cases h : obs.length = feats.length <;> simp [h, Except.isOk, Except.toBool]
  · rw [preprocess_minimap]
    by_cases h : obs.length = feats.length <;> simp [h]
  · intro e he
    rw [get_screen, he]
    rfl
  · intro e he
    rw [get_minimap, he]
    rfl

/-- C8 witness: a one-entry catalog against a two-layer observation fails,
and against a one-layer observation succeeds. -/
theorem preprocess_assert_iff_mismatch_witness :
    preprocess_screen [⟨FeatureType.SCALAR, 5⟩] [[[0]], [[0]]] =
      Except.error "AssertionError" ∧
    get_screen [⟨FeatureType.SCALAR, 5⟩] [[[0]], [[0]]] =
      Except.error "AssertionError" ∧
    (preprocess_screen [⟨FeatureType.SCALAR, 5⟩] [[[0]]]).isOk = true := by
  have h := preprocess_assert_iff_mismatch [⟨FeatureType.SCALAR, 5⟩] [[[0]], [[0]]]
  have h2 := preprocess_assert_iff_mismatch [⟨FeatureType.SCALAR, 5⟩] [[[0]]]
  have herr : preprocess_screen [⟨FeatureType.SCALAR, 5⟩] [[[0]], [[0]]] =
      Except.error "AssertionError" := h.2.1.mpr (by simp)
  exact ⟨herr, h.2.2.2.2.1 _ herr, h2.1.mpr (by simp)⟩

/-- Pixel access commutes with an elementwise map, for in-range pixels. -/
lemma pixel_map_of_lt (f : ℝ → ℝ) (m : Mat) (r c : ℕ)
    (hr : r < m.length) (hc : c < (m.getD r []).length) :
    pixel (m.map (fun row => row.map f)) r c = f (pixel m r c) := by
  unfold pixel
  have hr2 : r < (m.map (fun row => row.map f)).length := by simpa using hr
  rw [List.getD_eq_getElem _ _ hr2, List.getElem_map]
  rw [List.getD_eq_getElem m [] hr] at hc ⊢
  have hc2 : c < ((m[r]).map f).length := by simpa using hc
  rw [List.getD_eq_getElem _ _ hc2, List.getElem_map,
    List.getD_eq_getElem _ _ hc]

/-- The pixel of category channel `j` is the indicator of the raw value
equalling `j`. -/
lemma pixel_catChannel (j : ℕ) (m : Mat) (r c : ℕ)
    (hr : r < m.length) (hc : c < (m.getD r []).length) :
    pixel (catChannel j m) r c = if pixel m r c = (j : ℝ) then 1 else 0 :=
  pixel_map_of_lt (fun v => if v = (j : ℝ) then 1 else 0) m r c hr hc

/-- The stack of per-channel pixel values of a categorical expansion, as a
function of the raw pixel value. -/
lemma categoricalLayer_pixels (C : ℕ) (m : Mat) (r c : ℕ)
    (hr : r < m.length) (hc : c < (m.getD r []).length) :
    (categoricalLayer C m).map (fun ch => pixel ch r c) =
      (List.range C).map (fun j : ℕ => if pixel m r c = (j : ℝ) then 1 else 0) := by
  rw [categoricalLayer, List.map_map]
  refine List.map_congr_left ?_
  intro j _
  exact pixel_catChannel j m r c hr hc

/-- Indexing a map over `List.range`. -/
lemma getD_map_range (C j : ℕ) (hj : j < C) (f : ℕ → ℝ) :
    ((List.range C).map f).getD j 0 = f j := by
  rw [List.getD_eq_getElem _ _ (by simpa using hj)]
  rw [List.getElem_map, List.getElem_range]

/-- C1: for a categorical layer of cardinality `C` and a raw pixel value that
is an integer `k` in `[0, C)`, the expansion yields `C` channels whose values
at that pixel are 1 exactly at channel `k` and 0 elsewhere, so the argmax over
channels recovers `k`; this is the block the preprocessing loop appends for a
CATEGORICAL entry, and the minimap preprocessing is the same function. -/
theorem categorical_onehot_roundtrip (C : ℕ) (m : Mat) (r c k : ℕ)
    (hr : r < m.length) (hc : c < (m.getD r []).length)
    (hk : k < C) (hv : pixel m r c = (k : ℝ)) :
    ((categoricalLayer C m).map (fun ch => pixel ch r c)).length = C ∧
    (∀ j, j < C →
      ((categoricalLayer C m).map (fun ch => pixel ch r c)).getD j 0 =
        if j = k then 1 else 0) ∧
    preprocessLayer ⟨FeatureType.CATEGORICAL, C⟩ m = categoricalLayer C m ∧
    (∀ feats obs, preprocess_minimap feats obs = preprocess_screen feats obs) := by
  refine ⟨?_, ?_, rfl, fun _ _ => rfl⟩
  · rw [categoricalLayer_pixels C m r c hr hc]
    simp
  · intro j hj
    rw [categoricalLayer_pixels C m r c hr hc]
    rw [getD_map_range C j hj]
    by_cases hjk : j = k
    · subst hjk
      simp [hv]
    · simp [hv, hjk, Ne.symm hjk]

/-- C1 witness: cardinality 3, single pixel holding the raw value 2. -/
theorem categorical_onehot_roundtrip_witness :
    ((categoricalLayer 3 [[(2 : ℝ)]]).map (fun ch => pixel ch 0 0)).length = 3 ∧
    ((categoricalLayer 3 [[(2 : ℝ)]]).map (fun ch => pixel ch 0 0)).getD 0 0 = 0 ∧
    ((categoricalLayer 3 [[(2 : ℝ)]]).map (fun ch => pixel ch 0 0)).getD 1 0 = 0 ∧
    ((categoricalLayer 3 [[(2 : ℝ)]]).map (fun ch => pixel ch 0 0)).getD 2 0 = 1 := by
  have h := categorical_onehot_roundtrip 3 [[(2 : ℝ)]] 0 0 2 (by simp) (by simp [pixel])
    (by norm_num) (by norm_num [pixel])
  refine ⟨h.1, ?_, ?_, ?_⟩
  · rw [h.2.1 0 (by norm_num)]; norm_num
  · rw [h.2.1 1 (by norm_num)]; norm_num
  · rw [h.2.1 2 (by norm_num)]; norm_num

/-- C10: when the raw pixel value matches no category in `[0, C)` (for
example a value at least `C`), the expansion raises no error and every one of
the `C` channels is 0 at that pixel, so their sum there is 0 (hence at most
1); and with matching layer counts the preprocessing still succeeds whatever
the pixel values are. -/
theorem categorical_out_of_range_zero (C : ℕ) (m : Mat) (r c : ℕ)
    (hr : r < m.length) (hc : c < (m.getD r []).length)
    (hv : ∀ j, j < C → pixel m r c ≠ (j : ℝ)) :
    (∀ j, j < C →
      ((categoricalLayer C m).map (fun ch => pixel ch r c)).getD j 0 = 0) ∧
    ((categoricalLayer C m).map (fun ch => pixel ch r c)).sum = 0 ∧
    (∀ feats obs, obs.length = feats.length →
      (preprocess_screen feats obs).isOk = true ∧
      (preprocess_minimap feats obs).isOk = true) := by
  refine ⟨?_, ?_, ?_⟩
  · intro j hj
    rw [categoricalLayer_pixels C m r c hr hc]
    rw [getD_map_range C j hj]
    exact if_neg (hv j hj)
  · rw [categoricalLayer_pixels C m r c hr hc]
    refine List.sum_eq_zero ?_
    intro x hx
    rcases List.mem_map.mp hx with ⟨j, hj, rfl⟩
    exact if_neg (hv j (List.mem_range.mp hj))
  · intro feats obs hlen
    constructor
    · rw [preprocess_screen, if_pos hlen]; rfl
    · rw [preprocess_minimap, if_pos hlen]; rfl

/-- C10 witness: cardinality 3, single pixel holding the out-of-range raw
value 7; all three channels are 0 and the channel sum is 0. -/
theorem categorical_out_of_range_zero_witness :
    ((categoricalLayer 3 [[(7 : ℝ)]]).map (fun ch => pixel ch 0 0)).getD 0 0 = 0 ∧
    ((categoricalLayer 3 [[(7 : ℝ)]]).map (fun ch => pixel ch 0 0)).getD 2 0 = 0 ∧
    ((categoricalLayer 3 [[(7 : ℝ)]]).map (fun ch => pixel ch 0 0)).sum = 0 ∧
    (preprocess_screen [⟨FeatureType.CATEGORICAL, 3⟩] [[[(7 : ℝ)]]]).isOk = true := by
  have h := categorical_out_of_range_zero 3 [[(7 : ℝ)]] 0 0 (by simp) (by simp [pixel])
    (by intro j hj; interval_cases j <;> norm_num [pixel])
  exact ⟨h.1 0 (by norm_num), h.1 2 (by norm_num), h.2.1,
    (h.2.2 [⟨FeatureType.CATEGORICAL, 3⟩] [[[(7 : ℝ)]]] (by simp)).1⟩

/-- C3: a SCALAR layer maps every pixel value `x` to `log (x + 1)`; the value
0 maps to 0, and the mapping is monotone non-decreasing on non-negative
values; this is the single channel the preprocessing loop appends for a
SCALAR entry. -/
theorem scalar_log_transform (m : Mat) (r c : ℕ)
    (hr : r < m.length) (hc : c < (m.getD r []).length) :
    pixel (scalarLayer m) r c = Real.log (pixel m r c + 1) ∧
    (∀ s : ℕ, preprocessLayer ⟨FeatureType.SCALAR, s⟩ m = [scalarLayer m]) ∧
    (pixel m r c = 0 → pixel (scalarLayer m) r c = 0) ∧
    (∀ m2 r2 c2, r2 < m2.length → c2 < (m2.getD r2 []).length →
      0 ≤ pixel m r c → pixel m r c ≤ pixel m2 r2 c2 →
      pixel (scalarLayer m) r c ≤ pixel (scalarLayer m2) r2 c2) := by
  have h1 : pixel (scalarLayer m) r c = Real.log (pixel m r c + 1) :=
    pixel_map_of_lt (fun x => Real.log (x + 1)) m r c hr hc
  refine ⟨h1, fun _ => rfl, ?_, ?_⟩
  · intro h0
    rw [h1, h0]
    norm_num [Real.log_one]
  · intro m2 r2 c2 hr2 hc2 hx hxy
    have h2 : pixel (scalarLayer m2) r2 c2 = Real.log (pixel m2 r2 c2 + 1) :=
      pixel_map_of_lt (fun x => Real.log (x + 1)) m2 r2 c2 hr2 hc2
    rw [h1, h2]
    exact Real.log_le_log (by linarith) (by linarith)

/-- C3 witness: a SCALAR layer sends the pixel value 0 to 0 and respects the
order between the pixel values 0 and 3. -/
theorem scalar_log_transform_witness :
    pixel (scalarLayer [[(3 : ℝ)]]) 0 0 = Real.log (3 + 1) ∧
    pixel (scalarLayer [[(0 : ℝ)]]) 0 0 = 0 ∧
    pixel (scalarLayer [[(0 : ℝ)]]) 0 0 ≤ pixel (scalarLayer [[(3 : ℝ)]]) 0 0 := by
  have h3 := scalar_log_transform [[(3 : ℝ)]] 0 0 (by simp) (by simp [pixel])
  have h0 := scalar_log_transform [[(0 : ℝ)]] 0 0 (by simp) (by simp [pixel])
  refine ⟨?_, h0.2.2.1 (by norm_num [pixel]), ?_⟩
  · rw [h3.1]
    norm_num [pixel]
  · exact h0.2.2.2 [[(3 : ℝ)]] 0 0 (by simp) (by simp [pixel])
      (by norm_num [pixel]) (by norm_num [pixel])

/-! ### Claim about the output tensor shape -/

/-- Number of output channels one catalog entry contributes: 1 for SCALAR,
the cardinality for CATEGORICAL. -/
def layerWidth (f : Feature) : ℕ :=
  match f.type with
  | FeatureType.SCALAR => 1
  | FeatureType.CATEGORICAL => f.scale

/-- The loop body appends exactly `layerWidth f` channels for entry `f`. -/
lemma preprocessLayer_length (f : Feature) (m : Mat) :
    (preprocessLayer f m).length = layerWidth f := by
  cases h : f.type <;> simp [preprocessLayer, layerWidth, h, categoricalLayer]

/-- The channel-count fold, started anywhere, adds the widths of the
entries. -/
lemma foldl_channels (feats : List Feature) (n : ℕ) :
    feats.foldl
      (fun channels f =>
        match f.type with
        | FeatureType.SCALAR => channels + 1
        | FeatureType.CATEGORICAL => channels + f.scale) n
      = n + (feats.map layerWidth).sum := by
  induction feats generalizing n with
  | nil => simp
  | cons f fs ih =>
    rw [List.foldl_cons, ih]
    have hstep : (match f.type with
        | FeatureType.SCALAR => n + 1
        | FeatureType.CATEGORICAL => n + f.scale) = n + layerWidth f := by
      cases h : f.type <;> simp [layerWidth, h]
    rw [hstep]
    simp only [List.map_cons, List.sum_cons]
    omega

/-- The `screen_channels` property equals the sum of the per-entry widths. -/
lemma screen_channels_eq_sum (feats : List Feature) :
    screen_channels feats = (feats.map layerWidth).sum := by
  simpa using foldl_channels feats 0

/-- `minimap_channels` is computed by the same loop. -/
lemma minimap_channels_eq_screen_channels (feats : List Feature) :
    minimap_channels feats = screen_channels feats := rfl

/-- Total channel count of the preprocessed stack. -/
lemma preprocessedLayers_length (feats : List Feature) (screen : List Mat)
    (h : screen.length = feats.length) :
    (preprocessedLayers feats screen).length = screen_channels feats := by
  rw [preprocessedLayers, List.length_flatten, List.map_map,
    screen_channels_eq_sum]
  have h1 : (feats.zip screen).map (List.length ∘ fun p => preprocessLayer p.1 p.2)
      = (feats.zip screen).map (fun p => layerWidth p.1) := by
    refine List.map_congr_left ?_
    intro p _
    exact preprocessLayer_length p.1 p.2
  rw [h1]
  have h2 : (feats.zip screen).map (fun p => layerWidth p.1)
      = ((feats.zip screen).map Prod.fst).map layerWidth := by
    rw [List.map_map]
    rfl
  rw [h2, List.map_fst_zip feats screen (le_of_eq h.symm)]

/-- Elementwise maps preserve the image shape. -/
lemma mshape_map (g : ℝ → ℝ) (m : Mat) (H W : ℕ) (h : mshape m H W) :
    mshape (m.map (fun row => row.map g)) H W := by
  constructor
  · simpa using h.1
  · intro row hrow
    rcases List.mem_map.mp hrow with ⟨row0, h0, rfl⟩
    simpa using h.2 row0 h0

/-- Every channel the loop appends keeps the input layer shape. -/
lemma mshape_preprocessLayer (f : Feature) (m : Mat) (H W : ℕ)
    (h : mshape m H W) :
    ∀ ch ∈ preprocessLayer f m, mshape ch H W := by
  intro ch hch
  cases hf : f.type
  · rw [preprocessLayer, hf] at hch
    rcases List.mem_singleton.mp hch with rfl
    exact mshape_map _ m H W h
  · rw [preprocessLayer, hf] at hch
    rcases List.mem_map.mp hch with ⟨j, _, rfl⟩
    exact mshape_map _ m H W h

/-- Every channel of the preprocessed stack keeps the common layer shape. -/
lemma mshape_preprocessedLayers (feats : List Feature) (screen : List Mat)
    (H W : ℕ) (hshape : ∀ layer ∈ screen, mshape layer H W) :
    ∀ ch ∈ preprocessedLayers feats screen, mshape ch H W := by
  intro ch hch
  rw [preprocessedLayers] at hch
  rcases List.mem_flatten.mp hch with ⟨block, hblock, hchb⟩
  rcases List.mem_map.mp hblock with ⟨p, hp, rfl⟩
  rcases p with ⟨f, layer⟩
  exact mshape_preprocessLayer f layer H W
    (hshape layer (List.of_mem_zip hp).2) ch hchb

/-- C2: on a valid raw observation map of shape `(L, H, W)` with `L` the
catalog length, `get_screen` returns (a batch axis of size 1 around) a
channel stack of exactly `screen_channels` channels, each of shape `H × W`,
whatever the pixel values are; `get_minimap` is the same function and
`minimap_channels` the same count. -/
theorem get_screen_shape (feats : List Feature) (screen : List Mat) (H W : ℕ)
    (hlen : screen.length = feats.length)
    (hshape : ∀ layer ∈ screen, mshape layer H W) :
    get_screen feats screen = Except.ok [preprocessedLayers feats screen] ∧
    ([preprocessedLayers feats screen] : List (List Mat)).length = 1 ∧
    (preprocessedLayers feats screen).length = screen_channels feats ∧
    (∀ ch ∈ preprocessedLayers feats screen, mshape ch H W) ∧
    get_minimap feats screen = Except.ok [preprocessedLayers feats screen] ∧
    (preprocessedLayers feats screen).length = minimap_channels feats := by
  have hok : get_screen feats screen =
      Except.ok [preprocessedLayers feats screen] := by
    rw [get_screen, preprocess_screen, if_pos hlen]
    rfl
  have hokm : get_minimap feats screen =
      Except.ok [preprocessedLayers feats screen] := by
    rw [get_minimap, preprocess_minimap, if_pos hlen]
    rfl
  refine ⟨hok, rfl, preprocessedLayers_length feats screen hlen, ?_, hokm, ?_⟩
  · exact mshape_preprocessedLayers feats screen H W hshape
  · rw [minimap_channels_eq_screen_channels]
    exact preprocessedLayers_length feats screen hlen

/-- C2 witness: a catalog with one SCALAR and one CATEGORICAL entry of
cardinality 2 over a 1 × 1 map gives a batch of one stack of 3 channels. -/
theorem get_screen_shape_witness :
    get_screen [⟨FeatureType.SCALAR, 5⟩, ⟨FeatureType.CATEGORICAL, 2⟩]
        [[[(9 : ℝ)]], [[(1 : ℝ)]]] =
      Except.ok [preprocessedLayers
        [⟨FeatureType.SCALAR, 5⟩, ⟨FeatureType.CATEGORICAL, 2⟩]
        [[[(9 : ℝ)]], [[(1 : ℝ)]]]] ∧
    (preprocessedLayers [⟨FeatureType.SCALAR, 5⟩, ⟨FeatureType.CATEGORICAL, 2⟩]
        [[[(9 : ℝ)]], [[(1 : ℝ)]]]).length = 3 ∧
    screen_channels [⟨FeatureType.SCALAR, 5⟩, ⟨FeatureType.CATEGORICAL, 2⟩] = 3 := by
  have hch : screen_channels
      [⟨FeatureType.SCALAR, 5⟩, ⟨FeatureType.CATEGORICAL, 2⟩] = 3 := by
    rfl
  have h := get_screen_shape
    [⟨FeatureType.SCALAR, 5⟩, ⟨FeatureType.CATEGORICAL, 2⟩]
    [[[(9 : ℝ)]], [[(1 : ℝ)]]] 1 1 (by simp)
    (by
      intro layer hl
      rcases List.mem_cons.mp hl with rfl | hl2
      · exact ⟨rfl, by intro row hrow; rcases List.mem_singleton.mp hrow with rfl; rfl⟩
      · rcases List.mem_singleton.mp hl2 with rfl
        exact ⟨rfl, by intro row hrow; rcases List.mem_singleton.mp hrow with rfl; rfl⟩)
  refine ⟨h.1, ?_, hch⟩
  rw [h.2.2.1, hch]

end PySC2
